import Mathlib

/-!
Verification of the employee-management API (Express/Mongoose repository).

The development shallowly embeds the parts of the code that the spec's
testable properties are about:

* `src/middleware/validation.js` — `sanitizeInput` (recursive string
  sanitization), `validateManagerAssignment` / `checkCircularHierarchy`
  (manager-assignment validation and cycle detection),
  `validateEmployeeId` (Mongo ObjectId format check), the field
  validator lists, and `handleValidationErrors`.
* the Employee Mongoose schema (unnamed model file) — stored record
  shape, the `pre('save')` hooks (updatedAt refresh, sequential
  employee-id autogeneration), the `fullName` virtual, the
  `EMP\d{4}` employee-id format.
* the admin router (unnamed routes file) — the CRUD handlers
  (`POST/GET/PUT/DELETE /employees...`, `GET /employees/stats`) and
  their registration order.

Conventions of the embedding:

* Mongo ObjectIds and user ids are plain strings; the record store is an
  association list from ObjectId to the employee record, in insertion
  order (Mongo returns the first match for an id lookup).
* Timestamps are integers (milliseconds since epoch); `Date.now()` is an
  explicit `now` parameter.
* `Math.random()*10000` in the route-level id generator is an explicit
  draw parameter `r` (the generator uses `r % 10000`).
* Fallible/rejecting code paths return an explicit `Response` value;
  handlers return the response paired with the resulting store.
* `Option` models JS `undefined`/absent: a field that JS truthiness
  treats as absent is `none`.  Fields of the schema not touched by any
  claim (phone, dateOfBirth, address) are elided from the record shape.
-/

/-! ### Character classes used by the sanitizer regexes (ASCII fragment) -/

/-- Lower-casing used to model the `i` (ignore-case) regex flag. -/
def lcase (c : Char) : Char := c.toLower

/-- JS regex `\w` (ASCII): letters, digits, underscore. -/
def isWordChar (c : Char) : Bool := c.isAlpha || c.isDigit || c == '_'

/-- JS regex `\s` / `String.prototype.trim` whitespace (ASCII fragment). -/
def isSpaceJS (c : Char) : Bool :=
  c == ' ' || c == '\t' || c == '\n' || c == '\r' || c == '\x0b' || c == '\x0c'

/-- Case-insensitive "the text starts with this pattern" test
(`startsWithCI pat l`). -/
def startsWithCI : List Char → List Char → Bool
  | [], _ => true
  | _ :: _, [] => false
  | p :: ps, c :: cs => (lcase c == lcase p) && startsWithCI ps cs

/-- Count of the maximal run of characters satisfying `p` at the front. -/
def countWhile (p : Char → Bool) : List Char → Nat
  | [] => 0
  | c :: cs => if p c then countWhile p cs + 1 else 0

/-! ### The three removal patterns of `sanitizeInput`

Each checker decides whether the respective regex matches at the start of
the text and returns the length of the match.  The JS regexes are:

* `/<script\b[^<]*(?:(?!<\/script>)<[^<]*)*<\/script>/gi` — from
  `<script` (at a word boundary) to the first following `</script>`;
* `/javascript:/gi` — the literal scheme prefix, case-insensitively;
* `/on\w+\s*=/gi` — `on`, then a maximal word-character run (length at
  least one), a maximal whitespace run, and `=`.  Since word characters,
  whitespace and `=` are pairwise disjoint, the backtracking regex admits
  exactly this maximal-run reading.
-/

def jsPat : List Char := "javascript:".data

/-- Matcher for `/javascript:/i` at the front of the text. -/
def jsCheck (l : List Char) : Option Nat :=
  if startsWithCI jsPat l then some jsPat.length else none

/-- Matcher for `/on\w+\s*=/i` at the front of the text. -/
def onCheck (l : List Char) : Option Nat :=
  match l with
  | c0 :: c1 :: rest =>
    if lcase c0 == 'o' && lcase c1 == 'n' then
      let w := countWhile isWordChar rest
      if w == 0 then none
      else
        let s := countWhile isSpaceJS (rest.drop w)
        match (rest.drop w).drop s with
        | '=' :: _ => some (2 + w + s + 1)
        | _ => none
    else none
  | _ => none

def scriptOpen : List Char := "<script".data
def scriptClose : List Char := "</script>".data

/-- Index of the first position where `</script>` starts
(case-insensitively). -/
def findClose : List Char → Option Nat
  | [] => none
  | c :: cs =>
    if startsWithCI scriptClose (c :: cs) then some 0
    else (findClose cs).map (· + 1)

/-- Matcher for the script-tag regex at the front of the text:
`<script` at a word boundary, up to and including the first following
`</script>`.  A word boundary at the very end of the input can never be
completed to a match (the closing tag is required), so that case is
`none`. -/
def scriptCheck (l : List Char) : Option Nat :=
  if startsWithCI scriptOpen l then
    match l.drop 7 with
    | [] => none
    | c :: _ =>
      if isWordChar c then none
      else
        match findClose (l.drop 7) with
        | none => none
        | some j => some (7 + j + scriptClose.length)
  else none

/-- One global-replace pass (`String.prototype.replace` with a `g` regex
and empty replacement): scan left to right, delete each non-overlapping
match, continue after its end without rescanning the produced text.
The fuel argument is the length of the remaining text; every step
consumes at least one character, so it never runs out. -/
def replaceAllAux (check : List Char → Option Nat) : Nat → List Char → List Char
  | 0, l => l
  | _ + 1, [] => []
  | fuel + 1, c :: cs =>
    match check (c :: cs) with
    | some (n + 1) => replaceAllAux check fuel ((c :: cs).drop (n + 1))
    | _ => c :: replaceAllAux check fuel cs

def replaceAll (check : List Char → Option Nat) (l : List Char) : List Char :=
  replaceAllAux check l.length l

/-- `String.prototype.trim`, left part. -/
def trimLeft (l : List Char) : List Char := l.dropWhile isSpaceJS

/-- `String.prototype.trim`, right part. -/
def trimRight (l : List Char) : List Char := (l.reverse.dropWhile isSpaceJS).reverse

/-- `String.prototype.trim`. -/
def trimJS (l : List Char) : List Char := trimRight (trimLeft l)

/-- The per-string sanitization of `sanitizeInput`
(`validation.js` lines 151–155): remove script tags, then
`javascript:` prefixes, then inline event-handler patterns, then trim. -/
def sanitizeChars (l : List Char) : List Char :=
  trimJS (replaceAll onCheck (replaceAll jsCheck (replaceAll scriptCheck l)))

def sanitizeString (s : String) : String :=
  String.mk (sanitizeChars s.data)

/-! ### JSON-style payloads and the recursive sanitization (`sanitizeObject`)

`sanitizeInput` walks the request body: string values are sanitized,
object values (including nested ones) are walked recursively, all other
values pass through unchanged (`validation.js` lines 147–160). -/

inductive JValue where
  | jstr (s : String)
  | jnum (n : Int)
  | jbool (b : Bool)
  | jnull
  | jarr (xs : List JValue)
  | jobj (fields : List (String × JValue))

mutual

/-- `sanitizeObject` of `sanitizeInput`, as a pure map over a payload. -/
def sanitizeValue : JValue → JValue
  | .jstr s => .jstr (sanitizeString s)
  | .jnum n => .jnum n
  | .jbool b => .jbool b
  | .jnull => .jnull
  | .jarr xs => .jarr (sanitizeValueList xs)
  | .jobj fs => .jobj (sanitizeValueFields fs)

def sanitizeValueList : List JValue → List JValue
  | [] => []
  | v :: vs => sanitizeValue v :: sanitizeValueList vs

def sanitizeValueFields : List (String × JValue) → List (String × JValue)
  | [] => []
  | (k, v) :: fs => (k, sanitizeValue v) :: sanitizeValueFields fs

end

/-! ### The Employee record (Mongoose schema, fields used by the spec) -/

/-- `personalInfo` subdocument (claim-relevant fields). -/
structure PersonalInfo where
  firstName : Option String := none
  lastName : Option String := none
  email : Option String := none
deriving Repr, DecidableEq

/-- `jobInfo` subdocument.  `manager` is a weak reference holding another
record's ObjectId; `startDate` is a timestamp. -/
structure JobInfo where
  title : Option String := none
  department : Option String := none
  manager : Option String := none
  startDate : Option Int := none
  salary : Option Int := none
  employmentType : Option String := none
deriving Repr, DecidableEq

/-- A stored employee document.  All nested fields are optional because a
Mongo `$set` of a whole subdocument can leave schema-required fields
absent in the stored record. -/
structure Employee where
  employeeId : String
  personalInfo : PersonalInfo
  jobInfo : JobInfo
  status : String
  createdAt : Int
  updatedAt : Int
  createdBy : String
  updatedBy : Option String := none
deriving Repr, DecidableEq

/-- The record store: ObjectId-keyed documents in insertion order. -/
abbrev Store : Type := List (String × Employee)

/-- `Employee.findById`: the first document with the given ObjectId. -/
def findById (store : Store) (oid : String) : Option Employee :=
  (List.find? (fun p => p.1 == oid) store).map (fun p => p.2)

/-- The `fullName` virtual: template-literal concatenation of the name
parts (an absent part prints as `undefined`, as in JS). -/
def fullName (e : Employee) : String :=
  e.personalInfo.firstName.getD "undefined" ++ " " ++ e.personalInfo.lastName.getD "undefined"

/-! ### Request bodies

The create/update body mirrors the JS request body: each top-level key
may be absent.  The `personalInfo`/`jobInfo` sections reuse the stored
subdocument shapes (all-optional), which is exactly what a Mongo `$set`
of the section persists.  A `none` models a JS-falsy/absent value. -/

structure Body where
  employeeId : Option String := none
  personalInfo : Option PersonalInfo := none
  jobInfo : Option JobInfo := none
  status : Option String := none
deriving Repr, DecidableEq

def sanitizePersonal (p : PersonalInfo) : PersonalInfo :=
  { firstName := p.firstName.map sanitizeString
    lastName := p.lastName.map sanitizeString
    email := p.email.map sanitizeString }

def sanitizeJob (j : JobInfo) : JobInfo :=
  { title := j.title.map sanitizeString
    department := j.department.map sanitizeString
    manager := j.manager.map sanitizeString
    startDate := j.startDate
    salary := j.salary
    employmentType := j.employmentType.map sanitizeString }

/-- `sanitizeInput` restricted to the typed employee body: every string
leaf is sanitized, non-strings pass through. -/
def sanitizeBody (b : Body) : Body :=
  { employeeId := b.employeeId.map sanitizeString
    personalInfo := b.personalInfo.map sanitizePersonal
    jobInfo := b.jobInfo.map sanitizeJob
    status := b.status.map sanitizeString }

/-! ### Responses -/

structure FieldError where
  field : String
  message : String
deriving Repr, DecidableEq

/-- The response shapes the admin router produces (message strings are
the literal strings of the source). -/
inductive Response where
  | okList (message : String) (employees : List Employee)
  | okEmployee (message : String) (e : Employee)
  | created (message : String) (e : Employee)
  | okDeleted (message : String) (oid : String) (employeeId : String) (fullName : String)
  | okStats (message : String) (totalEmployees activeEmployees inactiveEmployees terminatedEmployees recentHires : Nat)
      (departmentStats employmentTypeStats : List (Option String × Nat))
  | badRequest (message : String) (error : Option String)
  | conflictDelete (message : String) (managedEmployees : Nat)
  | validationFailed (message : String) (errors : List FieldError)
  | notFound (message : String)
  | serverError (message : String)
deriving Repr, DecidableEq

/-- HTTP status of each response shape. -/
def Response.status : Response → Nat
  | .okList .. => 200
  | .okEmployee .. => 200
  | .created .. => 201
  | .okDeleted .. => 200
  | .okStats .. => 200
  | .badRequest .. => 400
  | .conflictDelete .. => 400
  | .validationFailed .. => 400
  | .notFound .. => 404
  | .serverError .. => 500

/-! ### `validateEmployeeId`: Mongo ObjectId shape -/

def isHexDigit (c : Char) : Bool :=
  c.isDigit || ('a' ≤ c && c ≤ 'f') || ('A' ≤ c && c ≤ 'F')

/-- `/^[0-9a-fA-F]{24}$/` (`validation.js` line 10). -/
def isValidObjectId (s : String) : Bool :=
  s.length == 24 && s.data.all isHexDigit

/-- The `validateEmployeeId` middleware rejection. -/
def invalidIdResponse : Response :=
  .badRequest "Invalid employee ID format" (some "Employee ID must be a valid MongoDB ObjectId")

/-! ### `checkCircularHierarchy` (`validation.js` lines 73–90)

The walk follows `jobInfo.manager` links starting at the candidate
manager, keeping a visited set.  The recursion guard of the source is
the single truthiness test `manager && manager.jobInfo.manager` after a
`findById`; that combined lookup-then-step is `managerStep`.  The walk
recurses only when the current manager id resolves to a stored record
that itself has a manager, after inserting the (unvisited, stored) id
into the visited set — so the count of stored ids not yet visited
strictly decreases, which is the termination measure. -/

def storeKeys (store : Store) : List String := store.map (fun p => p.1)

theorem findById_key_mem {store : Store} {oid : String} {e : Employee}
    (h : findById store oid = some e) : oid ∈ storeKeys store := by
  unfold findById at h
  cases hf : List.find? (fun p => p.1 == oid) store with
  | none => rw [hf] at h; simp at h
  | some p =>
    have hp := List.find?_some hf
    have hmem := List.mem_of_find?_eq_some hf
    have : p.1 = oid := by simpa using hp
    subst this
    exact List.mem_map_of_mem (fun p => p.1) hmem

/-- One step up the manager graph: `Employee.findById(managerId)`
followed by the truthy test on `manager && manager.jobInfo.manager`. -/
def managerStep (store : Store) (oid : String) : Option String :=
  (findById store oid).bind (fun e => e.jobInfo.manager)

theorem managerStep_key_mem {store : Store} {m next : String}
    (h : managerStep store m = some next) : m ∈ storeKeys store := by
  unfold managerStep at h
  cases hf : findById store m with
  | none => rw [hf] at h; simp at h
  | some e => exact findById_key_mem hf

theorem length_filter_le_of_imp (l : List String) (p q : String → Bool)
    (h : ∀ x, p x = true → q x = true) :
    (l.filter p).length ≤ (l.filter q).length := by
  induction l with
  | nil => simp
  | cons a as ih =>
    by_cases hpa : p a = true
    · simp [List.filter, hpa, h a hpa]; omega
    · simp only [List.filter]
      rw [Bool.not_eq_true] at hpa
      rw [hpa]
      cases hqa : q a <;> simp <;> omega

theorem length_filter_visited_cons_lt (keys : List String) (k : String)
    (v : List String) (hk : k ∈ keys) (hv : v.contains k = false) :
    (keys.filter (fun x => !((k :: v).contains x))).length <
      (keys.filter (fun x => !(v.contains x))).length := by
  have himp : ∀ x, (!((k :: v).contains x)) = true → (!(v.contains x)) = true := by
    intro x hx
    rw [Bool.not_eq_true'] at hx ⊢
    rw [List.contains_cons] at hx
    exact (Bool.or_eq_false_iff.mp hx).2
  induction keys with
  | nil => simp at hk
  | cons a as ih =>
    by_cases hak : a = k
    · subst hak
      have h1 : ((a :: v).contains a) = true := by
        rw [List.contains_cons]; simp
      have hle := length_filter_le_of_imp as
        (fun x => !((a :: v).contains x)) (fun x => !(v.contains x)) himp
      simp only [List.filter_cons, h1, hv, Bool.not_true, Bool.not_false]
      simp only [Bool.false_eq_true, if_false, if_true, List.length_cons]
      omega
    · have hk2 : k ∈ as := by
        rcases List.mem_cons.mp hk with h | h
        · exact absurd h.symm hak
        · exact h
      have hne : (a == k) = false := beq_eq_false_iff_ne.mpr hak
      have hsame : ((k :: v).contains a) = (v.contains a) := by
        rw [List.contains_cons, hne, Bool.false_or]
      have hlt := ih hk2
      simp only [List.filter_cons, hsame]
      cases hva : v.contains a
      · simp only [Bool.not_false, if_true, List.length_cons]; omega
      · simp only [Bool.not_true, Bool.false_eq_true, if_false]; omega

/-- `checkCircularHierarchy(employeeId, managerId, visited)`
(`validation.js` lines 73–90): `true` if the walk from `managerId`
along `jobInfo.manager` links re-encounters a visited id or reaches
`employeeId`.  Terminates because every recursive step inserts a fresh
stored id into the visited set. -/
def checkCircularHierarchy (store : Store) (employeeId : String)
    (managerId : String) (visited : List String) : Bool :=
  if visited.contains managerId then true
  else if managerId = employeeId then true
  else
    match hstep : managerStep store managerId with
    | none => false
    | some next => checkCircularHierarchy store employeeId next (managerId :: visited)
termination_by ((storeKeys store).filter (fun x => !(visited.contains x))).length
decreasing_by
  exact length_filter_visited_cons_lt (storeKeys store) managerId visited
    (managerStep_key_mem hstep) (Bool.eq_false_iff.mpr (by assumption))

/-- Fuel-indexed version of the walk: `none` when the step budget runs
out.  Used to state the resource bound of the walk. -/
def checkCircularFuel (store : Store) : Nat → String → String → List String → Option Bool
  | 0, _, _, _ => none
  | fuel + 1, employeeId, managerId, visited =>
    if visited.contains managerId then some true
    else if managerId = employeeId then some true
    else
      match managerStep store managerId with
      | none => some false
      | some next => checkCircularFuel store fuel employeeId next (managerId :: visited)

/-- Within a step budget exceeding the count of stored-and-unvisited ids,
the fueled walk completes and agrees with `checkCircularHierarchy`. -/
theorem checkCircularFuel_eq (store : Store) :
    ∀ (fuel : Nat) (e m : String) (v : List String),
    ((storeKeys store).filter (fun x => !(v.contains x))).length < fuel →
    checkCircularFuel store fuel e m v =
      some (checkCircularHierarchy store e m v) := by
  intro fuel
  induction fuel with
  | zero => intro _ _ _ h; omega
  | succ f ih =>
    intro e m v h
    simp only [checkCircularFuel]
    rw [checkCircularHierarchy.eq_def]
    by_cases h1 : v.contains m = true
    · rw [if_pos h1, if_pos h1]
    · rw [if_neg h1, if_neg h1]
      by_cases h2 : m = e
      · rw [if_pos h2, if_pos h2]
      · rw [if_neg h2, if_neg h2]
        cases hstep : managerStep store m with
        | none => rfl
        | some next =>
          have hlt : ((storeKeys store).filter
              (fun x => !((m :: v).contains x))).length < f := by
            have := length_filter_visited_cons_lt (storeKeys store) m v
              (managerStep_key_mem hstep) (Bool.eq_false_iff.mpr h1)
            omega
          exact ih e next (m :: v) hlt

/-- The id reached after `n` manager-links starting from `b`
(`none` when the chain breaks off earlier). -/
def managerChain (store : Store) : String → Nat → Option String
  | b, 0 => some b
  | b, n + 1 =>
    match managerStep store b with
    | none => none
    | some c => managerChain store c n

/-- If `a` is reachable from `b` along manager links, the walk detects a
cycle whatever the initial visited set is: it either reaches `a` or
re-encounters a visited id on the unique path, and both cases yield
`true`. -/
theorem checkCircular_of_chain (store : Store) :
    ∀ (n : Nat) (b a : String) (v : List String),
    managerChain store b n = some a →
    checkCircularHierarchy store a b v = true := by
  intro n
  induction n with
  | zero =>
    intro b a v hb
    simp only [managerChain, Option.some.injEq] at hb
    subst hb
    rw [checkCircularHierarchy.eq_def]
    by_cases h1 : v.contains b = true
    · rw [if_pos h1]
    · rw [if_neg h1, if_pos rfl]
  | succ n ih =>
    intro b a v hb
    simp only [managerChain] at hb
    cases hs : managerStep store b with
    | none => rw [hs] at hb; simp at hb
    | some c =>
      rw [hs] at hb
      rw [checkCircularHierarchy.eq_def]
      by_cases h1 : v.contains b = true
      · rw [if_pos h1]
      · rw [if_neg h1]
        by_cases h2 : b = a
        · rw [if_pos h2]
        · rw [if_neg h2]
          cases hstep : managerStep store b with
          | none => rw [hstep] at hs; simp at hs
          | some c2 =>
            have hc : c2 = c := by
              rw [hstep] at hs
              exact Option.some.inj hs
            subst hc
            exact ih c2 a (b :: v) hb

/-! ### `validateManagerAssignment` (`validation.js` lines 24–70)

Runs only when the body carries a (truthy) `jobInfo.manager`.  Checks,
short-circuiting in this order: manager exists → manager active → not
self (update case only) → not cyclic (update case only).  Read-only:
it produces a rejection response or passes. -/

def validateManagerAssignment (store : Store) (paramsId : Option String)
    (body : Body) : Option Response :=
  match body.jobInfo with
  | none => none
  | some jb =>
    match jb.manager with
    | none => none
    | some managerId =>
      match findById store managerId with
      | none => some (.badRequest "Invalid manager assignment"
          (some "Specified manager does not exist"))
      | some manager =>
        if manager.status ≠ "active" then
          some (.badRequest "Invalid manager assignment"
            (some "Specified manager is not active"))
        else
          match paramsId with
          | some pid =>
            if managerId = pid then
              some (.badRequest "Invalid manager assignment"
                (some "Employee cannot be their own manager"))
            else if checkCircularHierarchy store pid managerId [] then
              some (.badRequest "Invalid manager assignment"
                (some "This assignment would create a circular management hierarchy"))
            else none
          | none => none

/-! ### Field validators (`validateEmployeeCreation` / `validateEmployeeUpdate`)

express-validator `body(...)` chains only annotate the request; the
rejection happens in `handleValidationErrors`, which in both mutating
routes is registered after `validateManagerAssignment`.  The chains are
embedded as error-list producers over the typed body.  Only the checks
on modeled fields are embedded; `isEmail` is abstracted to the shape
`local@domain.tld` (one `@`, nonempty local part, dot in the domain),
which agrees with the library on every concrete email used here. -/

def departmentEnum : List String :=
  ["Engineering", "Marketing", "Sales", "HR", "Finance", "Operations",
   "Customer Service", "IT", "Legal", "Other"]

def employmentTypeEnum : List String := ["full-time", "part-time", "contract", "intern"]

def statusEnum : List String := ["active", "inactive", "terminated"]

/-- `/^[a-zA-Z\s\-']+$/` of the name validators. -/
def isNameChar (c : Char) : Bool :=
  c.isAlpha || isSpaceJS c || c == '-' || c == '\''

def nameOk (s : String) : Bool :=
  2 ≤ s.length && s.length ≤ 50 && s.data.all isNameChar

/-- Split on a separator character (used by the `isEmail` abstraction). -/
def splitOnChar (c : Char) : List Char → List (List Char)
  | [] => [[]]
  | x :: xs =>
    let rest := splitOnChar c xs
    if x == c then [] :: rest
    else
      match rest with
      | [] => [[x]]
      | r :: rs => (x :: r) :: rs

/-- Abstraction of `isEmail`: one `@`, nonempty local part, a domain of
at least two nonempty dot-separated labels, overall length at most 100
(the separate `isLength` check of the creation chain). -/
def emailOk (s : String) : Bool :=
  match splitOnChar '@' s.data with
  | [localPart, domain] =>
    !localPart.isEmpty && !domain.isEmpty && (splitOnChar '.' domain).length ≥ 2
      && (splitOnChar '.' domain).all (fun seg => !seg.isEmpty) && s.length ≤ 100
  | _ => false

/-- One day in milliseconds; 30-day and one-year windows are modeled as
30 and 365 of these (the source uses calendar arithmetic via
`setDate`/`setFullYear`; the difference is irrelevant to the claims). -/
def dayMs : Int := 86400000

def err (f m : String) : FieldError := { field := f, message := m }

/-- Creation validator list (routes file lines 25–113), including the
`validateBusinessRules` chains appended to it; errors are collected in
order, not short-circuited. -/
def createFieldErrors (b : Body) (now : Int) : List FieldError :=
  let pi := b.personalInfo
  let ji := b.jobInfo
  (match pi >>= fun p => p.firstName with
   | some s => if nameOk s then [] else
       [err "personalInfo.firstName" "First name must be between 2 and 50 characters"]
   | none => [err "personalInfo.firstName" "First name must be between 2 and 50 characters"]) ++
  (match pi >>= fun p => p.lastName with
   | some s => if nameOk s then [] else
       [err "personalInfo.lastName" "Last name must be between 2 and 50 characters"]
   | none => [err "personalInfo.lastName" "Last name must be between 2 and 50 characters"]) ++
  (match pi >>= fun p => p.email with
   | some s => if emailOk s then [] else
       [err "personalInfo.email" "Please provide a valid email address"]
   | none => [err "personalInfo.email" "Please provide a valid email address"]) ++
  (match ji >>= fun j => j.title with
   | some s => if 1 ≤ s.length && s.length ≤ 100 then [] else
       [err "jobInfo.title" "Job title is required and cannot exceed 100 characters"]
   | none => [err "jobInfo.title" "Job title is required and cannot exceed 100 characters"]) ++
  (match ji >>= fun j => j.department with
   | some s => if departmentEnum.contains s then [] else
       [err "jobInfo.department" "Please select a valid department"]
   | none => [err "jobInfo.department" "Please select a valid department"]) ++
  (match ji >>= fun j => j.startDate with
   | some d => if d ≤ now then [] else
       [err "jobInfo.startDate" "Start date cannot be in the future"]
   | none => [err "jobInfo.startDate" "Start date cannot be in the future"]) ++
  (match ji >>= fun j => j.salary with
   | some sal => if 0 ≤ sal && sal ≤ 10000000 then [] else
       [err "jobInfo.salary" "Salary must be between 0 and 10,000,000"]
   | none => []) ++
  (match ji >>= fun j => j.employmentType with
   | some s => if employmentTypeEnum.contains s then [] else
       [err "jobInfo.employmentType" "Please select a valid employment type"]
   | none => []) ++
  (match b.status with
   | some s => if statusEnum.contains s then [] else
       [err "status" "Please select a valid status"]
   | none => []) ++
  (match ji >>= fun j => j.salary with
   | some sal =>
     if (ji >>= fun j => j.employmentType) = some "intern" && sal > 50000 then
       [err "jobInfo.salary" "Intern salary cannot exceed $50,000"]
     else []
   | none => []) ++
  (match ji >>= fun j => j.startDate with
   | some d => if d > now + 365 * dayMs then
       [err "jobInfo.startDate" "Start date cannot be more than one year in the future"]
     else []
   | none => [])

/-- Update validator list (routes file lines 116–182): every field
optional, no character whitelist on names, no business rules. -/
def updateFieldErrors (b : Body) (now : Int) : List FieldError :=
  let pi := b.personalInfo
  let ji := b.jobInfo
  (match pi >>= fun p => p.firstName with
   | some s => if 2 ≤ s.length && s.length ≤ 50 then [] else
       [err "personalInfo.firstName" "First name must be between 2 and 50 characters"]
   | none => []) ++
  (match pi >>= fun p => p.lastName with
   | some s => if 2 ≤ s.length && s.length ≤ 50 then [] else
       [err "personalInfo.lastName" "Last name must be between 2 and 50 characters"]
   | none => []) ++
  (match pi >>= fun p => p.email with
   | some s => if emailOk s then [] else
       [err "personalInfo.email" "Please provide a valid email address"]
   | none => []) ++
  (match ji >>= fun j => j.title with
   | some s => if 1 ≤ s.length && s.length ≤ 100 then [] else
       [err "jobInfo.title" "Job title cannot exceed 100 characters"]
   | none => []) ++
  (match ji >>= fun j => j.department with
   | some s => if departmentEnum.contains s then [] else
       [err "jobInfo.department" "Please select a valid department"]
   | none => []) ++
  (match ji >>= fun j => j.startDate with
   | some d => if d ≤ now then [] else
       [err "jobInfo.startDate" "Start date cannot be in the future"]
   | none => []) ++
  (match ji >>= fun j => j.salary with
   | some sal => if 0 ≤ sal && sal ≤ 10000000 then [] else
       [err "jobInfo.salary" "Salary must be between 0 and 10,000,000"]
   | none => []) ++
  (match ji >>= fun j => j.employmentType with
   | some s => if employmentTypeEnum.contains s then [] else
       [err "jobInfo.employmentType" "Please select a valid employment type"]
   | none => []) ++
  (match b.status with
   | some s => if statusEnum.contains s then [] else
       [err "status" "Please select a valid status"]
   | none => [])

/-! ### Employee-id generation and the save-time schema checks -/

/-- `/^EMP\d{4}$/` — the schema `match` validator on `employeeId`. -/
def empIdFormatOk (s : String) : Bool :=
  match s.data with
  | 'E' :: 'M' :: 'P' :: ds => ds.length == 4 && ds.all Char.isDigit
  | _ => false

def digitsVal (l : List Char) : Nat :=
  l.foldl (fun acc c => acc * 10 + (c.toNat - 48)) 0

/-- The numeric part used by the sequential generator:
`parseInt(id.replace('EMP',''))` on an `EMP`-prefixed digit string. -/
def empIdNum (s : String) : Nat := digitsVal (s.data.drop 3)

/-- `generateEmployeeId` of the routes file (line 334):
`EMP` + `Math.floor(Math.random()*10000)` — the random draw, reduced
into `[0, 10000)`, is the explicit parameter.  No zero-padding, no look
at existing ids. -/
def generateEmployeeId (r : Nat) : String :=
  "EMP" ++ toString (r % 10000)

/-- Lexicographic string comparison used by the Mongo
`sort: { employeeId: -1 }` of the schema hook (on `EMP####`-shaped ids
it agrees with numeric order). -/
def strLtB (a b : String) : Bool := a.data < b.data

/-- The greatest stored `employeeId` (the record the schema hook's
`findOne({}, {}, { sort: { employeeId: -1 } })` returns, if any). -/
def maxEmployeeId (store : Store) : Option String :=
  store.foldl (fun acc p =>
    match acc with
    | none => some p.2.employeeId
    | some m => if strLtB m p.2.employeeId then some p.2.employeeId else some m) none

def padStart4 (n : Nat) : String :=
  let s := toString n
  if s.length ≥ 4 then s else String.mk (List.replicate (4 - s.length) '0') ++ s

/-- The sequential generator of the schema `pre('save')` hook (model
file lines 158–175): next number after the highest existing id, padded
to 4 digits.  The hook guards on `!this.employeeId`, and the create
route always sets `employeeId` first, so this never runs there. -/
def autogenEmployeeId (store : Store) : String :=
  let nextId :=
    match maxEmployeeId store with
    | some lastId => empIdNum lastId + 1
    | none => 1
  "EMP" ++ padStart4 nextId

/-- `toUpperCase` (the schema `uppercase: true` setter on
`employeeId`). -/
def toUpperJS (s : String) : String := String.mk (s.data.map Char.toUpper)

/-! ### Store mutations -/

/-- `findByIdAndUpdate`: replace the document stored under the id.  A
plain update object is sent as a top-level `$set`, so each top-level key
present in the body replaces the stored value of that key wholesale;
`updatedBy` is merged in by the route.  `findByIdAndUpdate` does not run
the `pre('save')` hooks, so `updatedAt` is left as stored. -/
def applyUpdate (old : Employee) (body : Body) (actor : String) : Employee :=
  { employeeId := (body.employeeId.map toUpperJS).getD old.employeeId
    personalInfo := body.personalInfo.getD old.personalInfo
    jobInfo := body.jobInfo.getD old.jobInfo
    status := body.status.getD old.status
    createdAt := old.createdAt
    updatedAt := old.updatedAt
    createdBy := old.createdBy
    updatedBy := some actor }

def storeUpdate (store : Store) (oid : String) (e : Employee) : Store :=
  store.map (fun p => if p.1 = oid then (p.1, e) else p)

/-- `findByIdAndDelete` (ids are unique in Mongo). -/
def storeDelete (store : Store) (oid : String) : Store :=
  store.filter (fun p => !(p.1 == oid))

/-- Document-creation defaults of the schema applied on `new Employee`:
`employmentType` defaults to `full-time` (only modeled default inside
the record sections). -/
def jobDefaults (j : JobInfo) : JobInfo :=
  { j with employmentType := some (j.employmentType.getD "full-time") }

/-! ### `POST /employees` (routes file lines 282–332)

Middleware order: router-level `sanitizeInput` first, then the
creation validator chains (annotate only), then
`validateManagerAssignment` (may reject), then `handleValidationErrors`
(rejects on collected errors), then the handler: email-uniqueness
check, id assignment (body id, else the random route-level generator),
`new Employee` + `save()` (pre-save hooks and schema validation, then
the unique-index check).  A schema validation failure surfaces through
the catch-all as a 500. -/
def handleCreate (store : Store) (now : Int) (actor : String) (r : Nat)
    (newOid : String) (rawBody : Body) : Response × Store :=
  let body := sanitizeBody rawBody
  match validateManagerAssignment store none body with
  | some resp => (resp, store)
  | none =>
    let errs := createFieldErrors body now
    if errs ≠ [] then (.validationFailed "Validation failed" errs, store)
    else
      match body.personalInfo >>= fun p => p.email with
      | none => (.serverError "Failed to create employee", store)
      | some email =>
        if store.any (fun p => p.2.personalInfo.email == some email) then
          (.badRequest "Employee with this email already exists" none, store)
        else
          let employeeId := toUpperJS (body.employeeId.getD (generateEmployeeId r))
          let e : Employee :=
            { employeeId := employeeId
              personalInfo := body.personalInfo.getD {}
              jobInfo := jobDefaults (body.jobInfo.getD {})
              status := body.status.getD "active"
              createdAt := now
              updatedAt := now
              createdBy := actor
              updatedBy := some actor }
          if !(empIdFormatOk e.employeeId) then
            (.serverError "Failed to create employee", store)
          else if store.any (fun p => p.2.employeeId == e.employeeId) then
            (.badRequest "Employee ID already exists" none, store)
          else (.created "Employee created successfully" e, store ++ [(newOid, e)])

/-! ### `PUT /employees/:id` (routes file lines 340–398)

Middleware order: sanitize, id-format check, update validator chains
(annotate), `validateManagerAssignment` (may reject — note this runs
before `handleValidationErrors` and before the existence check), field
error rejection, then the handler: existence check, email-conflict
check excluding self, `findByIdAndUpdate` with the spread body plus
`updatedBy`. -/
def handlePut (store : Store) (now : Int) (actor : String) (id : String)
    (rawBody : Body) : Response × Store :=
  let body := sanitizeBody rawBody
  if !(isValidObjectId id) then (invalidIdResponse, store)
  else
    match validateManagerAssignment store (some id) body with
    | some resp => (resp, store)
    | none =>
      let errs := updateFieldErrors body now
      if errs ≠ [] then (.validationFailed "Validation failed" errs, store)
      else
        match findById store id with
        | none => (.notFound "Employee not found", store)
        | some old =>
          let emailConflict :=
            match body.personalInfo >>= fun p => p.email with
            | some email =>
              store.any (fun p => !(p.1 == id) && p.2.personalInfo.email == some email)
            | none => false
          if emailConflict then
            (.badRequest "Another employee with this email already exists" none, store)
          else
            let e := applyUpdate old body actor
            (.okEmployee "Employee updated successfully" e, storeUpdate store id e)

/-! ### `DELETE /employees/:id` (routes file lines 401–436) -/

def handleDelete (store : Store) (id : String) : Response × Store :=
  if !(isValidObjectId id) then (invalidIdResponse, store)
  else
    match findById store id with
    | none => (.notFound "Employee not found", store)
    | some e =>
      let managed := store.filter (fun p => p.2.jobInfo.manager == some id)
      if managed.length > 0 then
        (.conflictDelete "Cannot delete employee who is managing other employees"
          managed.length, store)
      else
        (.okDeleted "Employee deleted successfully" id e.employeeId (fullName e),
          storeDelete store id)

/-! ### `GET` routes -/

/-- `GET /employees/:id` (routes file lines 257–279; `populate` only
affects presentation and is not modeled). -/
def handleGetOne (store : Store) (id : String) : Response :=
  if !(isValidObjectId id) then invalidIdResponse
  else
    match findById store id with
    | none => .notFound "Employee not found"
    | some e => .okEmployee "Employee retrieved successfully" e

def insertByCreatedDesc (p : String × Employee) :
    List (String × Employee) → List (String × Employee)
  | [] => [p]
  | q :: qs =>
    if q.2.createdAt ≤ p.2.createdAt then p :: q :: qs else q :: insertByCreatedDesc p qs

/-- `GET /employees` with default query (page 1, limit 10, no filter,
sort `createdAt` descending) — the claims do not exercise the
filter/search options. -/
def handleList (store : Store) : Response :=
  .okList "Employees retrieved successfully"
    (((store.foldr insertByCreatedDesc []).take 10).map (fun p => p.2))

def countDocs (store : Store) (f : Employee → Bool) : Nat :=
  (store.filter (fun p => f p.2)).length

def bumpKey (k : Option String) :
    List (Option String × Nat) → List (Option String × Nat)
  | [] => [(k, 1)]
  | (k2, n) :: rest => if k2 = k then (k2, n + 1) :: rest else (k2, n) :: bumpKey k rest

def insertByCountDesc (p : Option String × Nat) :
    List (Option String × Nat) → List (Option String × Nat)
  | [] => [p]
  | q :: qs => if q.2 ≤ p.2 then p :: q :: qs else q :: insertByCountDesc p qs

/-- `$group` by a key then `$sort { count: -1 }` (ties in unspecified
order; first-occurrence grouping, stable insertion sort). -/
def groupCounts (store : Store) (key : Employee → Option String) :
    List (Option String × Nat) :=
  (store.foldl (fun acc p => bumpKey (key p.2) acc) []).foldr insertByCountDesc []

/-- The stats handler (routes file lines 439–483). -/
def handleStats (store : Store) (now : Int) : Response :=
  .okStats "Employee statistics retrieved successfully"
    store.length
    (countDocs store (fun e => e.status == "active"))
    (countDocs store (fun e => e.status == "inactive"))
    (countDocs store (fun e => e.status == "terminated"))
    (countDocs store (fun e =>
      match e.jobInfo.startDate with
      | some d => now - 30 * dayMs ≤ d
      | none => false))
    (groupCounts store (fun e => e.jobInfo.department))
    (groupCounts store (fun e => e.jobInfo.employmentType))

/-! ### GET dispatch

Express matches routes in registration order.  The routes file
registers `GET /employees` (line 185), then `GET /employees/:id`
(line 257), then `GET /employees/stats` (line 439) — so a request path
`employees/stats` is captured by the `:id` route. -/

inductive Seg where
  | lit (s : String)
  | param
deriving Repr, DecidableEq

def routeMatch : List Seg → List String → Bool
  | [], [] => true
  | .lit s :: ps, x :: xs => s == x && routeMatch ps xs
  | .param :: ps, _ :: xs => routeMatch ps xs
  | _, _ => false

/-- The GET routes of the admin router, in registration order. -/
def getRoutes : List (List Seg × (Store → Int → List String → Response)) :=
  [ ([.lit "employees"], fun st _ _ => handleList st),
    ([.lit "employees", .param], fun st _ segs => handleGetOne st (segs.getD 1 "")),
    ([.lit "employees", .lit "stats"], fun st now _ => handleStats st now) ]

def dispatchGet (store : Store) (now : Int) (segs : List String) : Response :=
  match getRoutes.find? (fun route => routeMatch route.1 segs) with
  | some route => route.2 store now segs
  | none => .notFound "Not found"

/-! ### Properties of the sanitizer

The source removes each pattern in a single global pass; a pass can
concatenate fragments into a fresh pattern occurrence, so the
sanitization is not idempotent in general.  It is idempotent on strings
free of the three patterns: on those each removal pass is the identity,
sanitization is just `trim`, trimming preserves pattern-freeness
(matches examine only forward context inside the original text) and is
itself idempotent. -/

/-- No occurrence of the pattern anywhere in the text. -/
def NoOccur (check : List Char → Option Nat) (l : List Char) : Prop :=
  ∀ i, check (l.drop i) = none

theorem replaceAllAux_eq_self (check : List Char → Option Nat) :
    ∀ (f : Nat) (l : List Char), l.length ≤ f → NoOccur check l →
    replaceAllAux check f l = l := by
  intro f
  induction f with
  | zero =>
    intro l hl _
    cases l with
    | nil => rfl
    | cons c cs => simp at hl
  | succ f ih =>
    intro l hl hno
    cases l with
    | nil => rfl
    | cons c cs =>
      have h0 : check (c :: cs) = none := by simpa using hno 0
      simp only [replaceAllAux, h0]
      congr 1
      apply ih
      · simpa using Nat.le_of_succ_le_succ hl
      · intro i
        simpa using hno (i + 1)

theorem replaceAll_eq_self {check : List Char → Option Nat} {l : List Char}
    (hno : NoOccur check l) : replaceAll check l = l :=
  replaceAllAux_eq_self check l.length l le_rfl hno

theorem length_dropWhile_le_len (p : Char → Bool) (l : List Char) :
    (l.dropWhile p).length ≤ l.length := by
  induction l with
  | nil => simp
  | cons c cs ih =>
    rw [List.dropWhile_cons]
    by_cases h : p c = true
    · rw [if_pos h]; simp; omega
    · rw [if_neg h]

theorem dropWhile_idem (p : Char → Bool) (l : List Char) :
    (l.dropWhile p).dropWhile p = l.dropWhile p := by
  induction l with
  | nil => rfl
  | cons c cs ih =>
    rw [List.dropWhile_cons]
    by_cases h : p c = true
    · rw [if_pos h]; exact ih
    · rw [if_neg h, List.dropWhile_cons, if_neg h]

theorem dropWhile_eq_self_of_prefix (p : Char → Bool) {y z : List Char}
    (hy : y.dropWhile p = y) (hz : z <+: y) : z.dropWhile p = z := by
  cases z with
  | nil => rfl
  | cons c cs =>
    obtain ⟨r, hr⟩ := hz
    have hcons : y = c :: (cs ++ r) := by rw [← hr]; rfl
    have hpc : p c = false := by
      by_contra hpc
      rw [Bool.not_eq_false] at hpc
      rw [hcons, List.dropWhile_cons, if_pos hpc] at hy
      have hlen := length_dropWhile_le_len p (cs ++ r)
      have hcontra : (c :: (cs ++ r)).length ≤ (cs ++ r).length := hy ▸ hlen
      simp only [List.length_cons] at hcontra
      omega
    rw [List.dropWhile_cons, if_neg (by simp [hpc])]

theorem trimRight_prefix (l : List Char) : trimRight l <+: l := by
  unfold trimRight
  have : l.reverse.dropWhile isSpaceJS <:+ l.reverse := List.dropWhile_suffix _
  have h2 := List.reverse_prefix.mpr this
  simpa using h2

theorem trimLeft_idem (l : List Char) : trimLeft (trimLeft l) = trimLeft l :=
  dropWhile_idem isSpaceJS l

theorem trimRight_idem (l : List Char) : trimRight (trimRight l) = trimRight l := by
  unfold trimRight
  rw [List.reverse_reverse]
  rw [dropWhile_idem]

theorem trimJS_idem (l : List Char) : trimJS (trimJS l) = trimJS l := by
  unfold trimJS
  have h1 : trimLeft (trimRight (trimLeft l)) = trimRight (trimLeft l) := by
    apply dropWhile_eq_self_of_prefix isSpaceJS (y := trimLeft l)
    · exact trimLeft_idem l
    · exact trimRight_prefix (trimLeft l)
  rw [h1, trimRight_idem]

theorem trimJS_infix_self (l : List Char) : trimJS l <:+: l := by
  have h1 : trimJS l <+: trimLeft l := trimRight_prefix (trimLeft l)
  have h2 : trimLeft l <:+ l := List.dropWhile_suffix _
  exact (h1.isInfix).trans (h2.isInfix)

/-- Pattern occurrences transfer from an infix back into the original
text, provided the checker is append-stable and rejects the empty
text. -/
theorem noOccur_of_sub (check : List Char → Option Nat)
    (hnil : check [] = none)
    (happ : ∀ (u w : List Char) (n : Nat), check u = some n → (check (u ++ w)).isSome)
    {l m : List Char} (hinf : m <:+: l)
    (hno : NoOccur check l) : NoOccur check m := by
  intro i
  by_cases hi : m.length ≤ i
  · rw [List.drop_eq_nil_of_le hi]
    exact hnil
  · by_contra hne
    obtain ⟨n, hn⟩ := Option.ne_none_iff_exists'.mp hne
    obtain ⟨s, t, hst⟩ := hinf
    have hdrop : l.drop (s.length + i) = m.drop i ++ t := by
      rw [← hst, List.append_assoc, List.drop_append,
        List.drop_append_of_le_length (by omega)]
    have hsome := happ (m.drop i) t n hn
    rw [← hdrop, hno (s.length + i)] at hsome
    simp at hsome

theorem startsWithCI_append {pat l : List Char} (w : List Char)
    (h : startsWithCI pat l = true) : startsWithCI pat (l ++ w) = true := by
  induction pat generalizing l with
  | nil => rfl
  | cons p ps ih =>
    cases l with
    | nil => simp [startsWithCI] at h
    | cons c cs =>
      simp only [List.cons_append, startsWithCI, Bool.and_eq_true] at h ⊢
      exact ⟨h.1, ih h.2⟩

theorem countWhile_le_length (p : Char → Bool) (l : List Char) :
    countWhile p l ≤ l.length := by
  induction l with
  | nil => simp [countWhile]
  | cons c cs ih =>
    simp only [countWhile, List.length_cons]
    by_cases h : p c = true
    · rw [if_pos h]; omega
    · rw [if_neg h]; omega

theorem countWhile_append_of_lt (p : Char → Bool) {l : List Char} (w : List Char)
    (h : countWhile p l < l.length) : countWhile p (l ++ w) = countWhile p l := by
  induction l with
  | nil => simp at h
  | cons c cs ih =>
    simp only [List.cons_append, countWhile]
    by_cases hc : p c = true
    · rw [if_pos hc, if_pos hc]
      have hlt : countWhile p cs < cs.length := by
        simp only [countWhile, List.length_cons, if_pos hc] at h
        omega
      exact congrArg (fun x => x + 1) (ih hlt)
    · rw [if_neg hc, if_neg hc]

theorem jsCheck_nil : jsCheck [] = none := rfl

theorem jsCheck_append {l : List Char} {n : Nat} (w : List Char)
    (h : jsCheck l = some n) : (jsCheck (l ++ w)).isSome := by
  unfold jsCheck at h ⊢
  by_cases hs : startsWithCI jsPat l = true
  · rw [if_pos (startsWithCI_append w hs)]
    rfl
  · rw [if_neg hs] at h
    exact absurd h (by simp)

theorem onCheck_nil : onCheck [] = none := rfl

theorem onCheck_append {l : List Char} {n : Nat} (w : List Char)
    (h : onCheck l = some n) : (onCheck (l ++ w)).isSome := by
  cases l with
  | nil => simp [onCheck] at h
  | cons c0 t =>
    cases t with
    | nil => simp [onCheck] at h
    | cons c1 rest =>
      simp only [onCheck] at h ⊢
      by_cases hg : (lcase c0 == 'o' && lcase c1 == 'n') = true
      case neg => rw [if_neg hg] at h; exact absurd h (by simp)
      rw [if_pos hg] at h
      simp only [List.cons_append]
      rw [if_pos hg]
      by_cases hw : (countWhile isWordChar rest == 0) = true
      case pos => rw [if_pos hw] at h; exact absurd h (by simp)
      rw [if_neg hw] at h
      split at h
      case _ tail heq =>
        have hWlt : countWhile isWordChar rest < rest.length := by
          rcases Nat.lt_or_ge (countWhile isWordChar rest) rest.length with hlt | hge
          · exact hlt
          · exfalso
            rw [List.drop_eq_nil_of_le hge] at heq
            simp at heq
        have hW := countWhile_append_of_lt isWordChar w hWlt
        rw [hW]
        rw [if_neg hw]
        rw [List.drop_append_of_le_length (le_of_lt hWlt)]
        have hSlt : countWhile isSpaceJS (rest.drop (countWhile isWordChar rest)) <
            (rest.drop (countWhile isWordChar rest)).length := by
          rcases Nat.lt_or_ge (countWhile isSpaceJS (rest.drop (countWhile isWordChar rest)))
            (rest.drop (countWhile isWordChar rest)).length with hlt | hge
          · exact hlt
          · exfalso
            rw [List.drop_eq_nil_of_le hge] at heq
            simp at heq
        rw [countWhile_append_of_lt isSpaceJS w hSlt]
        rw [List.drop_append_of_le_length (le_of_lt hSlt)]
        rw [heq]
        rfl
      case _ => exact absurd h (by simp)

theorem findClose_append {u : List Char} {j : Nat} (w : List Char)
    (h : findClose u = some j) : (findClose (u ++ w)).isSome := by
  induction u generalizing j with
  | nil => simp [findClose] at h
  | cons c cs ih =>
    simp only [findClose, List.cons_append, List.append_eq] at h ⊢
    by_cases hs2 : startsWithCI scriptClose (c :: (cs ++ w)) = true
    · rw [if_pos hs2]; rfl
    · rw [if_neg hs2]
      by_cases hs : startsWithCI scriptClose (c :: cs) = true
      · exact absurd (by simpa [List.cons_append] using startsWithCI_append w hs) hs2
      · rw [if_neg hs] at h
        cases hfc : findClose cs with
        | none => rw [hfc] at h; simp at h
        | some j2 =>
          have hind := ih (j := j2) hfc
          simpa using hind

theorem scriptCheck_nil : scriptCheck [] = none := rfl

theorem scriptCheck_append {l : List Char} {n : Nat} (w : List Char)
    (h : scriptCheck l = some n) : (scriptCheck (l ++ w)).isSome := by
  unfold scriptCheck at h ⊢
  by_cases hs : startsWithCI scriptOpen l = true
  · rw [if_pos hs] at h
    rw [if_pos (startsWithCI_append w hs)]
    cases h7 : l.drop 7 with
    | nil => rw [h7] at h; exact absurd h (by simp)
    | cons c rest7 =>
      have h7le : 7 ≤ l.length := by
        rcases Nat.lt_or_ge l.length 7 with hlt | hge
        · exfalso
          rw [List.drop_eq_nil_of_le (le_of_lt hlt)] at h7
          simp at h7
        · exact hge
      rw [h7] at h
      dsimp only at h
      rw [List.drop_append_of_le_length h7le, h7]
      simp only [List.cons_append]
      by_cases hwc : isWordChar c = true
      · rw [if_pos hwc] at h; exact absurd h (by simp)
      · rw [if_neg hwc] at h
        rw [if_neg hwc]
        cases hfc : findClose (c :: rest7) with
        | none => rw [hfc] at h; exact absurd h (by simp)
        | some j =>
          have hind := findClose_append (j := j) w hfc
          have hind2 : (findClose (c :: (rest7 ++ w))).isSome := by
            simpa [List.cons_append] using hind
          cases hfc2 : findClose (c :: (rest7 ++ w)) with
          | none => rw [hfc2] at hind2; simp at hind2
          | some j2 => rfl
  · rw [if_neg hs] at h
    exact absurd h (by simp)

/-- The text contains no occurrence of any of the three removal
patterns. -/
def CleanChars (l : List Char) : Prop :=
  NoOccur scriptCheck l ∧ NoOccur jsCheck l ∧ NoOccur onCheck l

theorem sanitizeChars_eq_trim {l : List Char} (h : CleanChars l) :
    sanitizeChars l = trimJS l := by
  unfold sanitizeChars
  rw [replaceAll_eq_self h.1, replaceAll_eq_self h.2.1, replaceAll_eq_self h.2.2]

theorem cleanChars_of_sub {l m : List Char} (hinf : m <:+: l)
    (h : CleanChars l) : CleanChars m :=
  ⟨noOccur_of_sub scriptCheck scriptCheck_nil
      (fun _ w _ hc => scriptCheck_append w hc) hinf h.1,
   noOccur_of_sub jsCheck jsCheck_nil
      (fun _ w _ hc => jsCheck_append w hc) hinf h.2.1,
   noOccur_of_sub onCheck onCheck_nil
      (fun _ w _ hc => onCheck_append w hc) hinf h.2.2⟩

theorem sanitizeChars_idem_of_clean {l : List Char} (h : CleanChars l) :
    sanitizeChars (sanitizeChars l) = sanitizeChars l := by
  rw [sanitizeChars_eq_trim h]
  rw [sanitizeChars_eq_trim (cleanChars_of_sub (trimJS_infix_self l) h)]
  exact trimJS_idem l

/-- Decidable pattern-freeness of a string (positions beyond the length
yield the empty text, on which every checker fails). -/
def cleanStrB (s : String) : Bool :=
  (List.range (s.data.length + 1)).all (fun i =>
    (scriptCheck (s.data.drop i)).isNone && (jsCheck (s.data.drop i)).isNone
      && (onCheck (s.data.drop i)).isNone)

theorem cleanChars_of_B {s : String} (h : cleanStrB s = true) : CleanChars s.data := by
  have hall := List.all_eq_true.mp h
  have key : ∀ (check : List Char → Option Nat), check [] = none →
      (∀ i, i < s.data.length + 1 → (check (s.data.drop i)).isNone = true) →
      NoOccur check s.data := by
    intro check hnil hin i
    by_cases hi : i < s.data.length + 1
    · have := hin i hi
      exact Option.eq_none_iff_forall_not_mem.mpr
        (fun a ha => by rw [Option.isNone_iff_eq_none.mp this] at ha; simp at ha)
    · rw [List.drop_eq_nil_of_le (by omega)]
      exact hnil
  refine ⟨key scriptCheck scriptCheck_nil ?_, key jsCheck jsCheck_nil ?_,
    key onCheck onCheck_nil ?_⟩ <;>
    intro i hi <;>
    have hx := hall i (List.mem_range.mpr hi) <;>
    simp only [Bool.and_eq_true] at hx
  · exact hx.1.1
  · exact hx.1.2
  · exact hx.2

theorem sanitizeString_idem_of_clean {s : String} (h : cleanStrB s = true) :
    sanitizeString (sanitizeString s) = sanitizeString s := by
  unfold sanitizeString
  have hdata : (String.mk (sanitizeChars s.data)).data = sanitizeChars s.data := rfl
  rw [hdata]
  rw [sanitizeChars_idem_of_clean (cleanChars_of_B h)]

/-! ### Pattern-freeness over whole payloads -/

mutual

/-- Every string leaf of the payload is free of the three patterns. -/
def cleanValue : JValue → Bool
  | .jstr s => cleanStrB s
  | .jnum _ => true
  | .jbool _ => true
  | .jnull => true
  | .jarr xs => cleanValueList xs
  | .jobj fs => cleanValueFields fs

def cleanValueList : List JValue → Bool
  | [] => true
  | v :: vs => cleanValue v && cleanValueList vs

def cleanValueFields : List (String × JValue) → Bool
  | [] => true
  | (_, v) :: fs => cleanValue v && cleanValueFields fs

end

mutual

theorem sanitizeValue_idem_of_clean :
    ∀ (v : JValue), cleanValue v = true →
      sanitizeValue (sanitizeValue v) = sanitizeValue v
  | .jstr s, h => by
    simp only [sanitizeValue]
    rw [sanitizeString_idem_of_clean (by simpa [cleanValue] using h)]
  | .jnum _, _ => rfl
  | .jbool _, _ => rfl
  | .jnull, _ => rfl
  | .jarr xs, h => by
    simp only [sanitizeValue]
    rw [sanitizeValueList_idem_of_clean xs (by simpa [cleanValue] using h)]
  | .jobj fs, h => by
    simp only [sanitizeValue]
    rw [sanitizeValueFields_idem_of_clean fs (by simpa [cleanValue] using h)]

theorem sanitizeValueList_idem_of_clean :
    ∀ (xs : List JValue), cleanValueList xs = true →
      sanitizeValueList (sanitizeValueList xs) = sanitizeValueList xs
  | [], _ => rfl
  | v :: vs, h => by
    simp only [cleanValueList, Bool.and_eq_true] at h
    simp only [sanitizeValueList]
    rw [sanitizeValue_idem_of_clean v h.1, sanitizeValueList_idem_of_clean vs h.2]

theorem sanitizeValueFields_idem_of_clean :
    ∀ (fs : List (String × JValue)), cleanValueFields fs = true →
      sanitizeValueFields (sanitizeValueFields fs) = sanitizeValueFields fs
  | [], _ => rfl
  | (k, v) :: fs, h => by
    simp only [cleanValueFields, Bool.and_eq_true] at h
    simp only [sanitizeValueFields]
    rw [sanitizeValue_idem_of_clean v h.1, sanitizeValueFields_idem_of_clean fs h.2]

end

/-! ### Referential integrity of manager links -/

/-- Every present manager reference resolves to a stored record. -/
def RefIntegrity (store : Store) : Prop :=
  ∀ p ∈ store, ∀ m, p.2.jobInfo.manager = some m → (findById store m).isSome = true

/-- Decidable form of `RefIntegrity`. -/
def refIntegrityB (store : Store) : Bool :=
  store.all (fun p =>
    match p.2.jobInfo.manager with
    | none => true
    | some m => (findById store m).isSome)

/-- Every present manager reference resolves to a stored record whose
`status` is `active` (the stronger invariant claimed by the spec). -/
def activeRefIntegrityB (store : Store) : Bool :=
  store.all (fun p =>
    match p.2.jobInfo.manager with
    | none => true
    | some m =>
      match findById store m with
      | some mgr => mgr.status == "active"
      | none => false)

theorem refIntegrityB_iff {store : Store} :
    refIntegrityB store = true ↔ RefIntegrity store := by
  unfold refIntegrityB RefIntegrity
  rw [List.all_eq_true]
  constructor
  · intro h p hp m hm
    have := h p hp
    rw [hm] at this
    exact this
  · intro h p hp
    cases hm : p.2.jobInfo.manager with
    | none => rfl
    | some m => exact h p hp m hm

theorem findById_mem {store : Store} {id : String} {e : Employee}
    (h : findById store id = some e) : (id, e) ∈ store := by
  unfold findById at h
  cases hf : List.find? (fun p => p.1 == id) store with
  | none => rw [hf] at h; simp at h
  | some p =>
    rw [hf] at h
    have hkey : p.1 = id := by simpa using List.find?_some hf
    have hval : p.2 = e := by simpa using h
    have hmem := List.mem_of_find?_eq_some hf
    have : p = (id, e) := by
      cases p
      simp_all
    rw [← this]
    exact hmem

theorem findById_storeUpdate_isSome (store : Store) (id : String) (e : Employee)
    (m : String) :
    (findById (storeUpdate store id e) m).isSome = (findById store m).isSome := by
  induction store with
  | nil => rfl
  | cons q rest ih =>
    simp only [storeUpdate, List.map_cons]
    by_cases hq : q.1 = id
    · rw [if_pos hq]
      simp only [findById, List.find?]
      by_cases hm : (q.1 == m) = true
      · rw [hm]; rfl
      · rw [Bool.not_eq_true] at hm
        rw [hm]
        exact ih
    · rw [if_neg hq]
      simp only [findById, List.find?]
      by_cases hm : (q.1 == m) = true
      · rw [hm]
      · rw [Bool.not_eq_true] at hm
        rw [hm]
        exact ih

theorem findById_append_isSome {store : Store} {m : String} (x : String × Employee)
    (h : (findById store m).isSome = true) :
    (findById (store ++ [x]) m).isSome = true := by
  unfold findById at h ⊢
  rw [List.find?_append]
  cases hf : List.find? (fun p => p.1 == m) store with
  | none => rw [hf] at h; simp at h
  | some p => rfl

theorem findById_storeDelete_ne {store : Store} {id m : String} (hne : m ≠ id) :
    findById (storeDelete store id) m = findById store m := by
  induction store with
  | nil => rfl
  | cons q rest ih =>
    simp only [storeDelete, List.filter_cons]
    by_cases hq : (q.1 == id) = true
    · rw [hq]
      simp only [Bool.not_true, Bool.false_eq_true, if_false]
      have hqm : (q.1 == m) = false := by
        have hq1 : q.1 = id := by simpa using hq
        rw [hq1]
        exact beq_eq_false_iff_ne.mpr (fun hc => hne hc.symm)
      simp only [findById, List.find?, hqm]
      exact ih
    · rw [Bool.not_eq_true] at hq
      rw [hq]
      simp only [Bool.not_false, if_true, findById, List.find?]
      cases hqm : (q.1 == m) with
      | true => rfl
      | false => exact ih

theorem mem_storeUpdate {store : Store} {id : String} {e : Employee}
    {p : String × Employee} (h : p ∈ storeUpdate store id e) :
    p ∈ store ∨ p.2 = e := by
  unfold storeUpdate at h
  obtain ⟨q, hq, hfq⟩ := List.mem_map.mp h
  by_cases hqid : q.1 = id
  · rw [if_pos hqid] at hfq
    right
    rw [← hfq]
  · rw [if_neg hqid] at hfq
    left
    rw [← hfq]
    exact hq

/-! ### Inversion of the mutating handlers on success -/

theorem vma_badRequest {store : Store} {pid : Option String} {b : Body} {r : Response}
    (h : validateManagerAssignment store pid b = some r) :
    ∃ msg er, r = Response.badRequest msg er := by
  unfold validateManagerAssignment at h
  split at h
  · simp at h
  · split at h
    · simp at h
    · split at h
      · exact ⟨_, _, (Option.some.inj h).symm⟩
      · split at h
        · exact ⟨_, _, (Option.some.inj h).symm⟩
        · split at h
          · split at h
            · exact ⟨_, _, (Option.some.inj h).symm⟩
            · split at h
              · exact ⟨_, _, (Option.some.inj h).symm⟩
              · simp at h
          · simp at h

theorem vma_none_manager_exists {store : Store} {pid : Option String} {b : Body}
    {jb : JobInfo} {mid : String}
    (h : validateManagerAssignment store pid b = none)
    (hjb : b.jobInfo = some jb) (hmid : jb.manager = some mid) :
    (findById store mid).isSome = true := by
  unfold validateManagerAssignment at h
  rw [hjb] at h
  simp only at h
  rw [hmid] at h
  simp only at h
  cases hf : findById store mid with
  | none => rw [hf] at h; simp at h
  | some mgr => rfl

theorem handlePut_ok_inv {store : Store} {now : Int} {actor id : String}
    {rawBody : Body} {msg : String} {e : Employee} {st2 : Store}
    (h : handlePut store now actor id rawBody = (Response.okEmployee msg e, st2)) :
    ∃ old, findById store id = some old ∧
      validateManagerAssignment store (some id) (sanitizeBody rawBody) = none ∧
      e = applyUpdate old (sanitizeBody rawBody) actor ∧
      st2 = storeUpdate store id (applyUpdate old (sanitizeBody rawBody) actor) := by
  simp only [handlePut] at h
  split at h
  · simp [invalidIdResponse] at h
  · split at h
    case _ resp heq =>
      obtain ⟨m2, er, hr⟩ := vma_badRequest heq
      rw [hr] at h
      simp at h
    case _ heq =>
      split at h
      · simp at h
      · split at h
        case _ hfind => simp at h
        case _ old hfind =>
          split at h
          · simp at h
          · have h1 := congrArg Prod.fst h
            have h2 := congrArg Prod.snd h
            simp only [Prod.fst, Prod.snd] at h1 h2
            have h3 := (Response.okEmployee.injEq _ _ _ _).mp h1
            exact ⟨old, hfind, heq, h3.2.symm, by rw [← h2, h3.2]⟩

theorem handleDelete_ok_inv {store : Store} {id : String} {msg oid eid fn : String}
    {st2 : Store}
    (h : handleDelete store id = (Response.okDeleted msg oid eid fn, st2)) :
    ∃ e, findById store id = some e ∧
      store.filter (fun p => p.2.jobInfo.manager == some id) = [] ∧
      st2 = storeDelete store id := by
  simp only [handleDelete] at h
  split at h
  · simp [invalidIdResponse] at h
  · split at h
    case _ hfind => simp at h
    case _ e hfind =>
      split at h
      · simp at h
      case _ hlen =>
        have h2 := congrArg Prod.snd h
        simp only [Prod.snd] at h2
        refine ⟨e, hfind, ?_, h2.symm⟩
        have : (store.filter (fun p => p.2.jobInfo.manager == some id)).length = 0 := by
          omega
        exact List.length_eq_zero.mp this

theorem handleCreate_ok_inv {store : Store} {now : Int} {actor : String} {r : Nat}
    {newOid : String} {rawBody : Body} {msg : String} {e : Employee} {st2 : Store}
    (h : handleCreate store now actor r newOid rawBody = (Response.created msg e, st2)) :
    validateManagerAssignment store none (sanitizeBody rawBody) = none ∧
    e.jobInfo = jobDefaults ((sanitizeBody rawBody).jobInfo.getD {}) ∧
    e.updatedAt = now ∧ e.createdAt = now ∧ e.createdBy = actor ∧
    e.updatedBy = some actor ∧
    st2 = store ++ [(newOid, e)] := by
  simp only [handleCreate] at h
  split at h
  case _ resp heq =>
    obtain ⟨m2, er, hr⟩ := vma_badRequest heq
    rw [hr] at h
    simp at h
  case _ heq =>
    split at h
    · simp at h
    · split at h
      case _ hemail => simp at h
      case _ email hemail =>
        split at h
        · simp at h
        · split at h
          · simp at h
          · split at h
            · simp at h
            · have h1 := congrArg Prod.fst h
              have h2 := congrArg Prod.snd h
              simp only [Prod.fst, Prod.snd] at h1 h2
              have h3 := (Response.created.injEq _ _ _ _).mp h1
              refine ⟨heq, ?_, ?_, ?_, ?_, ?_, ?_⟩
              · rw [← h3.2]
              · rw [← h3.2]
              · rw [← h3.2]
              · rw [← h3.2]
              · rw [← h3.2]
              · rw [← h3.2]
                exact h2.symm

/-! ### Concrete fixtures used by witnesses and counterexamples -/

def oidA : String := "aaaaaaaaaaaaaaaaaaaaaaaa"
def oidB : String := "bbbbbbbbbbbbbbbbbbbbbbbb"
def adminOid : String := "cccccccccccccccccccccccc"

def piJohn : PersonalInfo :=
  { firstName := some "John", lastName := some "Doe", email := some "john.doe@example.com" }

def jiDev : JobInfo :=
  { title := some "Developer", department := some "Engineering", manager := none,
    startDate := some 100, salary := some 50000, employmentType := some "full-time" }

def empJohn : Employee :=
  { employeeId := "EMP0001", personalInfo := piJohn, jobInfo := jiDev,
    status := "active", createdAt := 100, updatedAt := 100,
    createdBy := adminOid, updatedBy := some adminOid }

def piJane : PersonalInfo :=
  { firstName := some "Jane", lastName := some "Roe", email := some "jane.roe@example.com" }

def empJaneActive : Employee :=
  { employeeId := "EMP0002", personalInfo := piJane,
    jobInfo := { jiDev with manager := some oidA }, status := "active",
    createdAt := 100, updatedAt := 100, createdBy := adminOid, updatedBy := some adminOid }

def empJaneInactive : Employee := { empJaneActive with status := "inactive" }

def stJohn : Store := [(oidA, empJohn)]
def stAB : Store := [(oidA, empJohn), (oidB, empJaneActive)]
def stABInactive : Store := [(oidA, empJohn), (oidB, empJaneInactive)]
def stHigh : Store := [(oidA, { empJohn with employeeId := "EMP5000" })]

def bodyTitleOnly : Body := { jobInfo := some { title := some "Senior Developer" } }
def bodyStatusInactive : Body := { status := some "inactive" }
def bodyStatusActive : Body := { status := some "active" }
def bodyMgrB : Body := { jobInfo := some { manager := some oidB } }
def bodySelfA : Body := { jobInfo := some { manager := some oidA } }
def bodyNew : Body :=
  { personalInfo := some piJane,
    jobInfo := some { title := some "Engineer", department := some "Engineering",
                      startDate := some 50 } }

/-- The employee carried by a `created` response, if any. -/
def Response.createdEmployee : Response → Option Employee
  | .created _ e => some e
  | _ => none

/-! ### Claim C10 -/

/-- C10: a GET request to `/employees/stats` does not return the
aggregate statistics.  The routes file registers `GET /employees/:id`
before `GET /employees/stats`, so the path is captured by the `:id`
route, whose ObjectId-shape check rejects `stats` with a 400 — the
stats handler is unreachable.  (The claim as stated is what the code
plainly intends — the stats handler exists in full — so this is a code
bug, witnessed here by evaluating the dispatch.) -/
theorem c10_stats_route_shadowed (store : Store) (now : Int) :
    dispatchGet store now ["employees", "stats"] =
      Response.badRequest "Invalid employee ID format"
        (some "Employee ID must be a valid MongoDB ObjectId") ∧
    (dispatchGet store now ["employees", "stats"]).status = 400 ∧
    dispatchGet store now ["employees", "stats"] ≠ handleStats store now := by
  refine ⟨rfl, rfl, ?_⟩
  intro hcon
  have : (dispatchGet store now ["employees", "stats"]).status =
      (handleStats store now).status := congrArg Response.status hcon
  rw [show (dispatchGet store now ["employees", "stats"]).status = 400 from rfl] at this
  rw [show (handleStats store now).status = 200 from rfl] at this
  simp at this

/-! ### Claim C2 -/

/-- C2: for a successful create without an explicit `employeeId`, the
assigned id is NOT the next sequential id: the route-level
`generateEmployeeId` returns `EMP` + `Math.floor(Math.random()*10000)`
with no padding and no look at existing ids (the schema hook that does
implement sequential generation is dead code because the route always
sets `employeeId` first).  With `EMP5000` stored and draw 4123 the
create succeeds with `EMP4123`, which is numerically smaller than the
existing id; the sequential generator would have produced `EMP5001`.
With draw 7 the unpadded id `EMP7` fails the schema's `EMP\d{4}` match
and the create fails entirely with a 500. -/
theorem c2_random_id_not_sequential :
    ((handleCreate stHigh 200 adminOid 4123 oidB bodyNew).1.createdEmployee.map
      (fun e => e.employeeId)) = some "EMP4123" ∧
    (handleCreate stHigh 200 adminOid 4123 oidB bodyNew).1.status = 201 ∧
    empIdFormatOk "EMP4123" = true ∧
    empIdNum "EMP4123" < empIdNum "EMP5000" ∧
    (∃ p ∈ stHigh, p.2.employeeId = "EMP5000") ∧
    autogenEmployeeId stHigh = "EMP5001" ∧
    (handleCreate stHigh 200 adminOid 7 oidB bodyNew).1 =
      Response.serverError "Failed to create employee" := by
  refine ⟨by decide, by decide, by decide, by decide, ⟨(oidA, { empJohn with employeeId := "EMP5000" }), by decide, by decide⟩, by decide, by decide⟩

/-! ### Claim C4 -/

/-- C4 counterexample: the claim says self-assignment is rejected with
the SelfReference reason regardless of X's status.  But
`validateManagerAssignment` checks the candidate manager's `status`
before the self check, so an inactive X assigning itself is rejected
with the ManagerInactive reason instead. -/
theorem c4_counterexample :
    handlePut [(oidB, empJaneInactive)] 200 adminOid oidB
        { jobInfo := some { manager := some oidB } } =
      (Response.badRequest "Invalid manager assignment"
        (some "Specified manager is not active"), [(oidB, empJaneInactive)]) ∧
    Response.badRequest "Invalid manager assignment"
        (some "Specified manager is not active") ≠
      Response.badRequest "Invalid manager assignment"
        (some "Employee cannot be their own manager") := by
  exact ⟨by decide, by decide⟩

/-- C4 amended: an update that sets X's manager to X itself is rejected
with the SelfReference reason provided X exists and X's status is
`active` (when X is inactive or terminated the status check fires first
and the reason is ManagerInactive; when X is absent it is
ManagerNotFound).  The store is left unchanged. -/
theorem c4_amended (store : Store) (now : Int) (actor x : String) (body : Body)
    (e : Employee)
    (hfmt : isValidObjectId x = true)
    (hfind : findById store x = some e)
    (hact : e.status = "active")
    (hjb : ∃ jb, (sanitizeBody body).jobInfo = some jb ∧ jb.manager = some x) :
    handlePut store now actor x body =
      (Response.badRequest "Invalid manager assignment"
        (some "Employee cannot be their own manager"), store) := by
  obtain ⟨jb, hjb1, hjb2⟩ := hjb
  have hv : validateManagerAssignment store (some x) (sanitizeBody body) =
      some (Response.badRequest "Invalid manager assignment"
        (some "Employee cannot be their own manager")) := by
    simp only [validateManagerAssignment, hjb1, hjb2, hfind]
    rw [if_neg (by simp [hact])]
    simp
  simp only [handlePut, hfmt, Bool.not_true, Bool.false_eq_true, if_false, hv]

/-- The sanitized `jobInfo` section of `bodySelfA`. -/
def jbSelfA : JobInfo :=
  { title := none, department := none, manager := some oidA,
    startDate := none, salary := none, employmentType := none }

/-- C4 witness: an active employee self-assigning is rejected with the
SelfReference reason at a concrete input. -/
theorem c4_witness :
    handlePut stJohn 200 adminOid oidA bodySelfA =
      (Response.badRequest "Invalid manager assignment"
        (some "Employee cannot be their own manager"), stJohn) :=
  c4_amended stJohn 200 adminOid oidA bodySelfA empJohn (by decide) (by decide)
    (by decide) ⟨jbSelfA, by decide, by decide⟩

/-! ### Claim C8 -/

/-- C8: deleting an employee that exists: if any stored record
references it as `jobInfo.manager`, the delete fails with a 400
(`conflictDelete`, status 400), the reported dependent count is exactly
the number of records whose manager reference is the employee's id, and
the store is unchanged; with zero dependents the delete succeeds and
returns the summary (Mongo id, `employeeId`, full name) while removing
the record. -/
theorem c8_delete_guard (store : Store) (id : String) (e : Employee)
    (hfmt : isValidObjectId id = true)
    (hfind : findById store id = some e) :
    ((store.filter (fun p => p.2.jobInfo.manager == some id)).length > 0 →
      handleDelete store id =
        (Response.conflictDelete "Cannot delete employee who is managing other employees"
          (store.filter (fun p => p.2.jobInfo.manager == some id)).length, store)) ∧
    ((store.filter (fun p => p.2.jobInfo.manager == some id)).length = 0 →
      handleDelete store id =
        (Response.okDeleted "Employee deleted successfully" id e.employeeId (fullName e),
          storeDelete store id)) := by
  constructor
  · intro hgt
    simp only [handleDelete, hfmt, Bool.not_true, Bool.false_eq_true, if_false, hfind]
    rw [if_pos hgt]
  · intro heq
    simp only [handleDelete, hfmt, Bool.not_true, Bool.false_eq_true, if_false, hfind]
    rw [if_neg (by omega)]

/-- C8 witness: with one dependent the delete is blocked with count 1
and an unchanged store; deleting the dependent itself succeeds with its
summary. -/
theorem c8_witness :
    handleDelete stAB oidA =
      (Response.conflictDelete "Cannot delete employee who is managing other employees" 1,
        stAB) ∧
    handleDelete stAB oidB =
      (Response.okDeleted "Employee deleted successfully" oidB "EMP0002" "Jane Roe",
        storeDelete stAB oidB) := by
  constructor
  · exact (c8_delete_guard stAB oidA empJohn (by decide) (by decide)).1 (by decide)
  · exact (c8_delete_guard stAB oidB empJaneActive (by decide) (by decide)).2 (by decide)

/-! ### Claim C6 -/

/-- C6: the manager-chain walk terminates on every store (including
stores whose manager references already form a cycle) and every
starting pair: the visited-set walk needs at most one step per stored
record, so the fueled walk with budget `store.length + 1` already
completes and agrees with the unbounded walk. -/
theorem c6_walk_terminates_within_store_bound (store : Store) (e m : String) :
    checkCircularFuel store (store.length + 1) e m [] =
      some (checkCircularHierarchy store e m []) := by
  apply checkCircularFuel_eq
  have h1 := List.length_filter_le (fun x => !(([] : List String).contains x)) (storeKeys store)
  have h2 : (storeKeys store).length = store.length := List.length_map store (fun p => p.1)
  omega

/-! ### Claim C1 -/

/-- C1 counterexample: A exists and is reachable from B along manager
links (B's manager is A), but because B's status is `inactive` the
validator rejects with the ManagerInactive reason — not the
CyclicHierarchy reason the claim demands for every such pair. -/
theorem c1_counterexample :
    (∃ eA, findById stABInactive oidA = some eA) ∧
    managerChain stABInactive oidB 1 = some oidA ∧
    handlePut stABInactive 200 adminOid oidA bodyMgrB =
      (Response.badRequest "Invalid manager assignment"
        (some "Specified manager is not active"), stABInactive) ∧
    Response.badRequest "Invalid manager assignment"
        (some "Specified manager is not active") ≠
      Response.badRequest "Invalid manager assignment"
        (some "This assignment would create a circular management hierarchy") := by
  exact ⟨⟨empJohn, by decide⟩, by decide, by decide, by decide⟩

/-- C1 amended: for employees A (stored) and B, if assigning B as A's
manager would make A reachable by following `jobInfo.manager` links
from B, the update is rejected with the CyclicHierarchy reason and the
store is unchanged — provided the earlier short-circuiting checks pass,
i.e. B is stored, B's status is `active`, and B ≠ A (otherwise the
rejection is ManagerNotFound / ManagerInactive / SelfReference
respectively, still a 400 with the store unchanged). -/
theorem c1_amended (store : Store) (now : Int) (actor a b : String) (body : Body)
    (eA mB : Employee) (n : Nat)
    (hfmt : isValidObjectId a = true)
    (hA : findById store a = some eA)
    (hjb : ∃ jb, (sanitizeBody body).jobInfo = some jb ∧ jb.manager = some b)
    (hB : findById store b = some mB)
    (hBact : mB.status = "active")
    (hne : b ≠ a)
    (hreach : managerChain store b n = some a) :
    handlePut store now actor a body =
      (Response.badRequest "Invalid manager assignment"
        (some "This assignment would create a circular management hierarchy"), store) := by
  obtain ⟨jb, hjb1, hjb2⟩ := hjb
  have hcirc := checkCircular_of_chain store n b a [] hreach
  have hv : validateManagerAssignment store (some a) (sanitizeBody body) =
      some (Response.badRequest "Invalid manager assignment"
        (some "This assignment would create a circular management hierarchy")) := by
    simp only [validateManagerAssignment, hjb1, hjb2, hB]
    rw [if_neg (by simp [hBact])]
    rw [if_neg hne]
    rw [if_pos hcirc]
  simp only [handlePut, hfmt, Bool.not_true, Bool.false_eq_true, if_false, hv]

def jbMgrB : JobInfo :=
  { title := none, department := none, manager := some oidB,
    startDate := none, salary := none, employmentType := none }

/-- C1 witness: B is active with manager A; updating A's manager to B
is rejected as cyclic with the store unchanged. -/
theorem c1_witness :
    handlePut stAB 200 adminOid oidA bodyMgrB =
      (Response.badRequest "Invalid manager assignment"
        (some "This assignment would create a circular management hierarchy"), stAB) :=
  c1_amended stAB 200 adminOid oidA oidB bodyMgrB empJohn empJaneActive 1
    (by decide) (by decide) ⟨jbMgrB, by decide, by decide⟩ (by decide) (by decide)
    (by decide) (by decide)

/-! ### Claim C3 -/

/-- C3 counterexample: the update succeeds with only `jobInfo.title` in
the payload (`jobInfo.salary` is absent), yet the persisted record's
`jobInfo.salary` changes from `some 50000` to `none`:
`findByIdAndUpdate` `$set`s the spread body's top-level keys, so a
present `jobInfo` object replaces the whole stored `jobInfo`, wiping
nested fields absent from the payload. -/
theorem c3_counterexample :
    bodyTitleOnly.jobInfo.map (fun j => j.salary) = some none ∧
    (handlePut stJohn 200 adminOid oidA bodyTitleOnly).1.status = 200 ∧
    (findById stJohn oidA).map (fun e => e.jobInfo.salary) = some (some 50000) ∧
    (findById (handlePut stJohn 200 adminOid oidA bodyTitleOnly).2 oidA).map
      (fun e => e.jobInfo.salary) = some none := by
  exact ⟨by decide, by decide, by decide, by decide⟩

/-- C3 amended: for every successful update, a top-level section
(`personalInfo`, `jobInfo`, `status`, `employeeId`) absent from the
(sanitized) payload keeps its stored value — in particular updating only
`jobInfo.title` leaves `personalInfo.email` unchanged — but a section
present in the payload is replaced wholesale, so nested fields absent
inside a present section are cleared rather than preserved. -/
theorem c3_amended (store : Store) (now : Int) (actor id : String) (rawBody : Body)
    (msg : String) (e : Employee) (st2 : Store) (old : Employee)
    (hfind : findById store id = some old)
    (hok : handlePut store now actor id rawBody = (Response.okEmployee msg e, st2)) :
    ((sanitizeBody rawBody).personalInfo = none → e.personalInfo = old.personalInfo) ∧
    ((sanitizeBody rawBody).jobInfo = none → e.jobInfo = old.jobInfo) ∧
    ((sanitizeBody rawBody).status = none → e.status = old.status) ∧
    ((sanitizeBody rawBody).employeeId = none → e.employeeId = old.employeeId) ∧
    (∀ p, (sanitizeBody rawBody).personalInfo = some p → e.personalInfo = p) ∧
    (∀ jb, (sanitizeBody rawBody).jobInfo = some jb → e.jobInfo = jb) := by
  obtain ⟨old2, hf2, _, he, _⟩ := handlePut_ok_inv hok
  have hold : old2 = old := by
    rw [hfind] at hf2
    exact (Option.some.inj hf2).symm
  subst hold
  refine ⟨?_, ?_, ?_, ?_, ?_, ?_⟩
  · intro h; rw [he]; simp [applyUpdate, h]
  · intro h; rw [he]; simp [applyUpdate, h]
  · intro h; rw [he]; simp [applyUpdate, h]
  · intro h; rw [he]; simp [applyUpdate, h]
  · intro p h; rw [he]; simp [applyUpdate, h]
  · intro jb h; rw [he]; simp [applyUpdate, h]

def empJohnTitled : Employee :=
  { empJohn with
    jobInfo := { title := some "Senior Developer", department := none, manager := none,
                 startDate := none, salary := none, employmentType := none } }

/-- C3 witness: at the concrete title-only update, the absent
`personalInfo` section (hence `personalInfo.email`) is preserved and
the present `jobInfo` section is replaced by the payload's object. -/
theorem c3_witness :
    empJohnTitled.personalInfo = empJohn.personalInfo ∧
    empJohnTitled.jobInfo =
      { title := some "Senior Developer", department := none, manager := none,
        startDate := none, salary := none, employmentType := none } := by
  have h := c3_amended stJohn 200 adminOid oidA bodyTitleOnly
    "Employee updated successfully" empJohnTitled
    (storeUpdate stJohn oidA empJohnTitled) empJohn (by decide) (by decide)
  exact ⟨h.1 (by decide), h.2.2.2.2.2 _ (by decide)⟩

/-! ### Claim C9 -/

/-- C9 counterexample: a successful update at time 999 on a record whose
`updatedAt` is 100 leaves `updatedAt` at 100: `findByIdAndUpdate`
bypasses the schema's `pre('save')` hook and the route never sets
`updatedAt`, so the claim's `updatedAt after > updatedAt before` fails
(`updatedBy` is set, however). -/
theorem c9_counterexample :
    (handlePut stJohn 999 adminOid oidA bodyStatusActive).1.status = 200 ∧
    (findById stJohn oidA).map (fun e => e.updatedAt) = some 100 ∧
    (findById (handlePut stJohn 999 adminOid oidA bodyStatusActive).2 oidA).map
      (fun e => e.updatedAt) = some 100 ∧
    ¬((100 : Int) > 100) := by
  exact ⟨by decide, by decide, by decide, by decide⟩

/-- C9 amended: every successful create sets `createdBy`/`updatedBy` to
the acting admin and stamps `createdAt`/`updatedAt` with the mutation
time (the pre-save hook runs under `save()`); every successful update
sets `updatedBy` to the acting admin but leaves `updatedAt` exactly as
it was (`findByIdAndUpdate` does not trigger the pre-save hook). -/
theorem c9_amended (store : Store) (now : Int) (actor id : String) (rawBody : Body)
    (msg msg2 : String) (e e2 : Employee) (st2 st3 : Store) (r : Nat) (newOid : String) :
    (handlePut store now actor id rawBody = (Response.okEmployee msg e, st2) →
      ∃ old, findById store id = some old ∧
        e.updatedBy = some actor ∧ e.updatedAt = old.updatedAt) ∧
    (handleCreate store now actor r newOid rawBody = (Response.created msg2 e2, st3) →
      e2.updatedBy = some actor ∧ e2.createdBy = actor ∧
      e2.updatedAt = now ∧ e2.createdAt = now) := by
  constructor
  · intro hok
    obtain ⟨old, hfind, _, he, _⟩ := handlePut_ok_inv hok
    exact ⟨old, hfind, by rw [he]; rfl, by rw [he]; rfl⟩
  · intro hok
    obtain ⟨_, _, hupd, hcre, hby, hby2, _⟩ := handleCreate_ok_inv hok
    exact ⟨hby2, hby, hupd, hcre⟩

def empJohnStatusUpd : Employee := { empJohn with updatedBy := some adminOid }

/-- C9 witness: the concrete successful update sets `updatedBy` and
keeps `updatedAt` at its previous value. -/
theorem c9_witness :
    empJohnStatusUpd.updatedBy = some adminOid ∧
    empJohnStatusUpd.updatedAt = empJohn.updatedAt := by
  have h := (c9_amended stJohn 999 adminOid oidA bodyStatusActive
    "Employee updated successfully" "" empJohnStatusUpd empJohn
    (storeUpdate stJohn oidA empJohnStatusUpd) stJohn 0 oidB).1 (by decide)
  obtain ⟨old, hold, h1, h2⟩ := h
  have holdJ : old = empJohn := by
    have hd : findById stJohn oidA = some empJohn := by decide
    rw [hold] at hd
    exact Option.some.inj hd
  exact ⟨h1, by rw [h2, holdJ]⟩

/-! ### Claim C5: preservation lemmas -/

theorem handleCreate_preserves_refIntegrity (store : Store) (now : Int)
    (actor : String) (r : Nat) (newOid : String) (cBody : Body)
    (hint : RefIntegrity store) :
    RefIntegrity (handleCreate store now actor r newOid cBody).2 := by
  simp only [handleCreate]
  split
  · exact hint
  case _ heq =>
    split
    · exact hint
    · split
      · exact hint
      case _ email hemail =>
        split
        · exact hint
        · split
          · exact hint
          · split
            · exact hint
            · intro p hp m hm
              have hp2 : p ∈ store ∨ p ∈ [(newOid,
                  { employeeId := toUpperJS ((sanitizeBody cBody).employeeId.getD
                      (generateEmployeeId r))
                    personalInfo := (sanitizeBody cBody).personalInfo.getD {}
                    jobInfo := jobDefaults ((sanitizeBody cBody).jobInfo.getD {})
                    status := (sanitizeBody cBody).status.getD "active"
                    createdAt := now, updatedAt := now, createdBy := actor
                    updatedBy := some actor : Employee})] := List.mem_append.mp hp
              rcases hp2 with hmem | hnew
              · exact findById_append_isSome _ (hint p hmem m hm)
              · have hpe := List.mem_singleton.mp hnew
                apply findById_append_isSome
                cases hjb : (sanitizeBody cBody).jobInfo with
                | none =>
                  exfalso
                  rw [hpe] at hm
                  simp only [hjb, Option.getD_none, jobDefaults] at hm
                  simp at hm
                | some jb =>
                  apply vma_none_manager_exists heq hjb
                  rw [hpe] at hm
                  simp only [hjb, Option.getD_some, jobDefaults] at hm
                  exact hm

theorem handlePut_preserves_refIntegrity (store : Store) (now : Int)
    (actor id : String) (uBody : Body)
    (hint : RefIntegrity store) :
    RefIntegrity (handlePut store now actor id uBody).2 := by
  simp only [handlePut]
  split
  · exact hint
  · split
    · exact hint
    case _ heq =>
      split
      · exact hint
      · split
        · exact hint
        case _ old hfind =>
          split
          · exact hint
          · intro p hp m hm
            rw [findById_storeUpdate_isSome]
            rcases mem_storeUpdate hp with hmem | hval
            · exact hint p hmem m hm
            · rw [hval] at hm
              cases hjb : (sanitizeBody uBody).jobInfo with
              | none =>
                have holdm : old.jobInfo.manager = some m := by
                  simp only [applyUpdate, hjb, Option.getD_none] at hm
                  exact hm
                exact hint (id, old) (findById_mem hfind) m holdm
              | some jb =>
                apply vma_none_manager_exists heq hjb
                simp only [applyUpdate, hjb, Option.getD_some] at hm
                exact hm

theorem handleDelete_preserves_refIntegrity (store : Store) (delId : String)
    (hint : RefIntegrity store) :
    RefIntegrity (handleDelete store delId).2 := by
  simp only [handleDelete]
  split
  · exact hint
  · split
    · exact hint
    case _ e hfind =>
      split
      · exact hint
      case _ hlen =>
        intro p hp m hm
        have hp2 := List.mem_filter.mp hp
        have hmne : m ≠ delId := by
          intro hmid
          subst hmid
          have hpmem : p ∈ store.filter (fun q => q.2.jobInfo.manager == some m) :=
            List.mem_filter.mpr ⟨hp2.1, by simp [hm]⟩
          have hne := List.ne_nil_of_mem hpmem
          have hzero : (store.filter (fun q => q.2.jobInfo.manager == some m)).length = 0 := by
            omega
          exact hne (List.length_eq_zero.mp hzero)
        rw [findById_storeDelete_ne hmne]
        exact hint p hp2.1 m hm

/-- C5 counterexample: the claimed invariant — every present manager
reference points to an existing *active* employee — holds of the store,
a status-only update of the manager succeeds (the manager validator
only runs when the body carries `jobInfo.manager`), and afterwards the
dependent references an inactive manager: the invariant is not
preserved by update. -/
theorem c5_counterexample :
    activeRefIntegrityB stAB = true ∧
    (handlePut stAB 300 adminOid oidA bodyStatusInactive).1.status = 200 ∧
    activeRefIntegrityB (handlePut stAB 300 adminOid oidA bodyStatusInactive).2 = false := by
  exact ⟨by decide, by decide, by decide⟩

/-- C5 amended: the weaker invariant that every present manager
reference points to an *existing* employee is preserved by all three
mutating operations (create validates the manager, update either keeps
or validates-and-replaces the whole `jobInfo`, delete refuses to remove
an employee someone references); the *active* half of the claimed
invariant is only checked at assignment time and can be broken by a
later status update of the manager. -/
theorem c5_amended (store : Store) (now : Int) (actor : String) (r : Nat)
    (newOid id delId : String) (cBody uBody : Body)
    (hint : RefIntegrity store) :
    RefIntegrity (handleCreate store now actor r newOid cBody).2 ∧
    RefIntegrity (handlePut store now actor id uBody).2 ∧
    RefIntegrity (handleDelete store delId).2 :=
  ⟨handleCreate_preserves_refIntegrity store now actor r newOid cBody hint,
   handlePut_preserves_refIntegrity store now actor id uBody hint,
   handleDelete_preserves_refIntegrity store delId hint⟩

/-- C5 witness: at the concrete status-flip update the existence
half of the invariant still holds of the resulting store. -/
theorem c5_witness :
    refIntegrityB (handlePut stAB 300 adminOid oidA bodyStatusInactive).2 = true :=
  refIntegrityB_iff.mpr
    ((c5_amended stAB 300 adminOid 0 oidB oidA oidB bodyNew bodyStatusInactive
      (refIntegrityB_iff.mp (by decide))).2.1)

/-! ### Claim C7 -/

/-- C7 counterexample: sanitization is not idempotent.  One global
`javascript:`-removal pass over `"javjavascript:ascript:"` deletes the
embedded occurrence and concatenates the remains into a fresh
`"javascript:"`, which only the second pass removes — so
`sanitize (sanitize p)` differs from `sanitize p`. -/
theorem c7_counterexample :
    sanitizeValue (sanitizeValue (JValue.jstr "javjavascript:ascript:")) ≠
      sanitizeValue (JValue.jstr "javjavascript:ascript:") := by
  simp only [sanitizeValue, ne_eq, JValue.jstr.injEq]
  decide

/-- C7 amended: sanitization is idempotent on payloads whose string
leaves are free of the three removed patterns (script tags,
`javascript:` prefixes, inline event-handler patterns): on such
payloads one pass only trims, trimming preserves pattern-freeness, and
trimming is idempotent.  On general payloads idempotence fails (see the
reassembly counterexample). -/
theorem c7_amended (p : JValue) (h : cleanValue p = true) :
    sanitizeValue (sanitizeValue p) = sanitizeValue p :=
  sanitizeValue_idem_of_clean p h

def payloadClean : JValue :=
  JValue.jobj [("personalInfo", JValue.jobj [("firstName", JValue.jstr " John ")]),
               ("jobInfo", JValue.jarr [JValue.jstr "Developer", JValue.jnum 5, JValue.jnull])]

/-- C7 witness: a concrete pattern-free payload on which double
sanitization equals single sanitization. -/
theorem c7_witness :
    cleanValue payloadClean = true ∧
    sanitizeValue (sanitizeValue payloadClean) = sanitizeValue payloadClean := by
  have hclean : cleanValue payloadClean = true := by
    simp only [payloadClean, cleanValue, cleanValueFields, cleanValueList, Bool.and_eq_true]
    refine ⟨⟨?_, trivial⟩, ⟨?_, ?_, ?_, ?_⟩, ?_⟩ <;> decide
  exact ⟨hclean, c7_amended payloadClean hclean⟩
